import Mathlib

/-!
Verification of the generational handle allocator ("slot map") in
`src/dense_storage.rs`: `Index`, `IndexAllocator`, `Entry`, `DenseStorage`
and their operations `reserve`, `recycle`, `insert`, `remove`,
`remove_recycle`, `get` and the internal reconciliation `flush`.

Modelling conventions:
- `u32` values are `Nat`s.  Arithmetic follows the default (debug) build of
  the program: a checked-overflow failure of `+= 1` / `-= 1` aborts the
  operation, which we model by returning `none` (a "panic" outcome), while
  `AtomicU32::fetch_add` wraps modulo `2^32` in every build, which we model
  with `% U32SIZE`.
- Out-of-bounds direct indexing `buffer[i]` (a panic) is modelled as `none`;
  the checked lookup `buffer.get(i)` is `List` optional indexing.
- `Vec`/`VecDeque` are `List`s; `VecDeque::pop_front` takes the head,
  `push_back` appends at the tail.
- Fallible operations return `Option` (with `none` = panic); `insert`'s
  `Result<bool, InvalidGenerationError>` is `Except` inside the `Option`.
-/

/-- Modulus of `u32` arithmetic: `2^32`. -/
def U32SIZE : Nat := 4294967296

/-- Rust `Index { index: u32, generation: u32 }`: a generational handle. -/
structure Index where
  index : Nat
  generation : Nat
deriving DecidableEq

/-- Rust `IndexAllocator`: atomic fresh counter, FIFO queue of freed handles,
and the pending list of handles already bumped by `reserve` but not yet
reconciled into the buffer. -/
structure IndexAllocator where
  next_index : Nat
  recycle_queue : List Index
  recycled : List Index
deriving DecidableEq

/-- The `Default` instance of `IndexAllocator`: everything zero/empty. -/
def IndexAllocator.empty : IndexAllocator := ⟨0, [], []⟩

/-- Rust `IndexAllocator::reserve`.  Pops the oldest freed handle, bumps its
generation by one (`none` when the checked `+= 1` overflows `u32`), and
records it in `recycled`; otherwise issues a fresh handle from the wrapping
atomic counter with generation `0`. -/
def IndexAllocator.reserve (a : IndexAllocator) : Option (Index × IndexAllocator) :=
  match a.recycle_queue with
  | r :: rest =>
      if r.generation + 1 < U32SIZE then
        let bumped : Index := ⟨r.index, r.generation + 1⟩
        some (bumped, ⟨a.next_index, rest, a.recycled ++ [bumped]⟩)
      else
        none
  | [] => some (⟨a.next_index, 0⟩, ⟨(a.next_index + 1) % U32SIZE, [], a.recycled⟩)

/-- Rust `IndexAllocator::recycle`: push the handle on the back of the queue
(no validation, no deduplication, no generation bump). -/
def IndexAllocator.recycle (a : IndexAllocator) (index : Index) : IndexAllocator :=
  ⟨a.next_index, a.recycle_queue ++ [index], a.recycled⟩

/-- Rust `Entry<T> { value: Option<T>, generation: u32 }`. -/
structure Entry (T : Type) where
  value : Option T
  generation : Nat
deriving DecidableEq

/-- Rust `DenseStorage<T>`: backing buffer, live count, owned allocator. -/
structure DenseStorage (T : Type) where
  buffer : List (Entry T)
  len : Nat
  index_allocator : IndexAllocator
deriving DecidableEq

/-- The `Default` instance of `DenseStorage`. -/
def DenseStorage.empty (T : Type) : DenseStorage T := ⟨[], 0, IndexAllocator.empty⟩

/-- Rust `buffer_len()`: physical size of the backing buffer. -/
def DenseStorage.buffer_len (s : DenseStorage T) : Nat := s.buffer.length

/-- Rust `Vec::resize_with(new_len, || Entry { value: None, generation: 0 })`:
grow with empty generation-0 entries, or truncate when shorter. -/
def resizeWith (buffer : List (Entry T)) (newLen : Nat) : List (Entry T) :=
  if buffer.length ≤ newLen then
    buffer ++ List.replicate (newLen - buffer.length) ⟨none, 0⟩
  else
    buffer.take newLen

/-- The loop in `flush` draining `recycled`: each pending handle's generation
is stamped into its slot and the slot's value cleared.  The source indexes
the buffer directly, so an out-of-range pending handle panics (`none`). -/
def stampRecycled (buffer : List (Entry T)) : List Index → Option (List (Entry T))
  | [] => some buffer
  | i :: rest =>
      if i.index < buffer.length then
        stampRecycled (buffer.set i.index ⟨none, i.generation⟩) rest
      else none

/-- Rust `DenseStorage::flush`: resize the buffer to the allocator's current
`next_index`, then stamp and drain the pending `recycled` list. -/
def DenseStorage.flush (s : DenseStorage T) : Option (DenseStorage T) :=
  match stampRecycled (resizeWith s.buffer s.index_allocator.next_index)
      s.index_allocator.recycled with
  | none => none
  | some buffer =>
      some ⟨buffer, s.len,
        ⟨s.index_allocator.next_index, s.index_allocator.recycle_queue, []⟩⟩

/-- Rust `InvalidGenerationError { index, current_generation }`. -/
structure InvalidGenerationError where
  index : Index
  current_generation : Nat
deriving DecidableEq

deriving instance DecidableEq for Except

/-- Rust `DenseStorage::insert`.  Flushes, then direct-indexes the slot
(`none` on out-of-range panic); on generation match stores the value,
reporting whether the slot was occupied and bumping `len` by one when it was
empty (`none` when the checked `len += 1` overflows); on mismatch returns
the `InvalidGenerationError` carrying the handle and the slot's current
generation. -/
def DenseStorage.insert (s : DenseStorage T) (index : Index) (value : T) :
    Option (Except InvalidGenerationError Bool × DenseStorage T) :=
  match s.flush with
  | none => none
  | some s1 =>
    match s1.buffer[index.index]? with
    | none => none
    | some entry =>
      if entry.generation = index.generation then
        let buffer := s1.buffer.set index.index ⟨some value, entry.generation⟩
        if entry.value.isSome then
          some (Except.ok true, ⟨buffer, s1.len, s1.index_allocator⟩)
        else if s1.len + 1 < U32SIZE then
          some (Except.ok false, ⟨buffer, s1.len + 1, s1.index_allocator⟩)
        else none
      else
        some (Except.error ⟨index, entry.generation⟩, s1)

/-- Rust `DenseStorage::remove`.  Flushes, then direct-indexes the slot
(`none` on out-of-range panic); on generation match takes the value and, if
one was present, decrements `len` (`none` when the checked `len -= 1`
underflows); on mismatch returns no value and leaves the state flushed. -/
def DenseStorage.remove (s : DenseStorage T) (index : Index) :
    Option (Option T × DenseStorage T) :=
  match s.flush with
  | none => none
  | some s1 =>
    match s1.buffer[index.index]? with
    | none => none
    | some entry =>
      if entry.generation = index.generation then
        match entry.value with
        | some v =>
            if s1.len = 0 then none
            else
              some (some v,
                ⟨s1.buffer.set index.index ⟨none, entry.generation⟩, s1.len - 1,
                  s1.index_allocator⟩)
        | none => some (none, s1)
      else
        some (none, s1)

/-- Rust `DenseStorage::remove_recycle`: `remove`, and when a value came out,
queue the handle for recycling. -/
def DenseStorage.remove_recycle (s : DenseStorage T) (index : Index) :
    Option (Option T × DenseStorage T) :=
  match s.remove index with
  | none => none
  | some (res, s1) =>
      match res with
      | some v =>
          some (some v, ⟨s1.buffer, s1.len, s1.index_allocator.recycle index⟩)
      | none => some (none, s1)

/-- Rust `DenseStorage::get`: checked lookup, no reconciliation; the value is
returned only when the stored generation matches the handle's. -/
def DenseStorage.get (s : DenseStorage T) (index : Index) : Option T :=
  match s.buffer[index.index]? with
  | none => none
  | some entry =>
      if entry.generation = index.generation then entry.value else none

/-- Number of buffer slots currently holding a value. -/
def occupiedCount (buffer : List (Entry T)) : Nat :=
  buffer.countP (fun e => e.value.isSome)

/-- One client-visible operation on a `DenseStorage Nat`, as in the claims
about arbitrary operation sequences.  Handle arguments are arbitrary
`Index` values: handles are freely copyable, so a caller may pass any handle
it ever saw (including stale ones). -/
inductive Op where
  | reserve
  | recycle (i : Index)
  | insert (i : Index) (v : Nat)
  | remove (i : Index)
  | removeRecycle (i : Index)
deriving DecidableEq

/-- Execute one operation, keeping only the storage state (`none` = panic). -/
def execOp (s : DenseStorage Nat) : Op → Option (DenseStorage Nat)
  | Op.reserve =>
      match s.index_allocator.reserve with
      | none => none
      | some (_, a) => some ⟨s.buffer, s.len, a⟩
  | Op.recycle i => some ⟨s.buffer, s.len, s.index_allocator.recycle i⟩
  | Op.insert i v =>
      match s.insert i v with
      | none => none
      | some (_, s1) => some s1
  | Op.remove i =>
      match s.remove i with
      | none => none
      | some (_, s1) => some s1
  | Op.removeRecycle i =>
      match s.remove_recycle i with
      | none => none
      | some (_, s1) => some s1

/-- Run a sequence of operations from a given state. -/
def runFrom (s : DenseStorage Nat) : List Op → Option (DenseStorage Nat)
  | [] => some s
  | op :: rest =>
      match execOp s op with
      | none => none
      | some s1 => runFrom s1 rest

/-- Run a sequence of operations from the default (empty) storage. -/
def runOps (ops : List Op) : Option (DenseStorage Nat) :=
  runFrom (DenseStorage.empty Nat) ops

/-- Number of stored values that the flush performed by an operation drops
without adjusting `len`: occupied slots cleared by the defensive recycle
stamp or cut off by buffer truncation. -/
def opDrop (s : DenseStorage Nat) : Op → Nat
  | Op.reserve => 0
  | Op.recycle _ => 0
  | _ =>
      match s.flush with
      | none => 0
      | some s1 => occupiedCount s.buffer - occupiedCount s1.buffer

/-- Run a sequence of operations while accumulating the number of values
dropped by reconciliation (the "leak" ghost counter). -/
def runLeakFrom (s : DenseStorage Nat) (acc : Nat) :
    List Op → Option (DenseStorage Nat × Nat)
  | [] => some (s, acc)
  | op :: rest =>
      match execOp s op with
      | none => none
      | some s1 => runLeakFrom s1 (acc + opDrop s op) rest

/-- Ordered sequence of `n` `reserve` calls, collecting the returned handles
in call order (`none` as soon as one call panics). -/
def reserveHandles (a : IndexAllocator) : Nat → Option (List Index × IndexAllocator)
  | 0 => some ([], a)
  | n + 1 =>
      match a.reserve with
      | none => none
      | some (h, a1) =>
          match reserveHandles a1 n with
          | none => none
          | some (hs, a2) => some (h :: hs, a2)

/-- Recycle a list of handles in order. -/
def IndexAllocator.recycleAll (a : IndexAllocator) (hs : List Index) : IndexAllocator :=
  hs.foldl IndexAllocator.recycle a

/-- Claim C2 as stated: whenever `remove h` yields a value, a following
`get h` is `none` and a later `insert` with the same handle `h` (no other
intervening operations) fails with `InvalidGenerationError`. -/
def removeStaleClaim : Prop :=
  ∀ (s s' : DenseStorage Nat) (h : Index) (v : Nat),
    s.remove h = some (some v, s') →
    s'.get h = none ∧
      ∀ w, ∃ er s2, s'.insert h w = some (Except.error er, s2)

/-- Claim C3 as stated: after any sequence of operations that completes
without a panic, `len` equals the number of occupied buffer slots. -/
def lenOccupiedClaim : Prop :=
  ∀ (ops : List Op) (s : DenseStorage Nat),
    runOps ops = some s → s.len = occupiedCount s.buffer

/-- Claim C4 as stated (its "never decreases" part): extending an operation
sequence never lowers the generation stamped in any buffer slot. -/
def generationMonotoneClaim : Prop :=
  ∀ (ops extra : List Op) (s1 s2 : DenseStorage Nat),
    runOps ops = some s1 → runOps (ops ++ extra) = some s2 →
    ∀ (j : Nat) (e1 e2 : Entry Nat),
      s1.buffer[j]? = some e1 → s2.buffer[j]? = some e2 →
      e1.generation ≤ e2.generation

/-- Claim C5 as stated: from a reconciled quiescent state whose slot `i`
holds generation `g`, recycling `⟨i, g⟩` and reserving returns the same slot
with generation exactly `g + 1`; then inserting with the old handle fails
with `InvalidGenerationError` while inserting through the new handle
succeeds, a `get` with the new handle sees the value, and `buffer_len` is
unchanged by the reuse. -/
def recycleReserveClaim : Prop :=
  ∀ (s : DenseStorage Nat) (n i g : Nat) (e : Entry Nat),
    s.index_allocator = ⟨n, [], []⟩ → s.buffer.length = n →
    s.buffer[i]? = some e → e.generation = g →
    ∃ (a2 : IndexAllocator),
      (s.index_allocator.recycle ⟨i, g⟩).reserve = some (⟨i, g + 1⟩, a2) ∧
      (∀ w, ∃ er sf,
        DenseStorage.insert ⟨s.buffer, s.len, a2⟩ ⟨i, g⟩ w
          = some (Except.error er, sf) ∧ sf.buffer_len = s.buffer_len) ∧
      (∀ w, ∃ sc,
        DenseStorage.insert ⟨s.buffer, s.len, a2⟩ ⟨i, g + 1⟩ w
          = some (Except.ok false, sc) ∧ sc.get ⟨i, g + 1⟩ = some w ∧
          sc.buffer_len = s.buffer_len)

/-- Claim C6 as stated: `remove` never panics, for every storage state and
every handle (in particular out-of-range ones). -/
def removeTotalClaim : Prop :=
  ∀ (s : DenseStorage Nat) (h : Index), ∃ r s', s.remove h = some (r, s')

/-- Claim C7 as stated: recycling `h1, ..., hn` and then reserving `n` times
returns, in order, exactly the recycled slots (FIFO) with each generation
incremented by `1`. -/
def fifoReuseClaim : Prop :=
  ∀ (a : IndexAllocator) (hs : List Index), a.recycle_queue = [] →
    ∃ rs a2, reserveHandles (a.recycleAll hs) hs.length = some (rs, a2) ∧
      rs = hs.map (fun h => ⟨h.index, h.generation + 1⟩)

/-- Claim C8 as stated: with no recycling, every sequence of `reserve` calls
returns handles of generation `0` with strictly increasing slot numbers. -/
def freshReserveClaim : Prop :=
  ∀ (k : Nat) (rs : List Index) (a2 : IndexAllocator),
    reserveHandles IndexAllocator.empty k = some (rs, a2) →
    (∀ (j : Nat) (h : Index), rs[j]? = some h → h.generation = 0) ∧
    (∀ (j1 j2 : Nat) (h1 h2 : Index), j1 < j2 →
      rs[j1]? = some h1 → rs[j2]? = some h2 → h1.index < h2.index)

/-- Setting an element changes `countP` by swapping the old element's
contribution for the new one's. -/
theorem countP_set_swap {T : Type} (p : Entry T → Bool) :
    ∀ (l : List (Entry T)) (i : Nat) (a : Entry T) (h : i < l.length),
      List.countP p (l.set i a) + (if p l[i] then 1 else 0)
        = List.countP p l + (if p a then 1 else 0)
  | [], i, a, h => absurd h (by simp)
  | hd :: tl, 0, a, h => by
      simp [List.countP_cons]
      omega
  | hd :: tl, n + 1, a, h => by
      have ih := countP_set_swap p tl n a (by simpa using h)
      simp only [List.set_cons_succ, List.countP_cons, List.getElem_cons_succ]
      omega

/-- A slot seen to hold a value contributes to `occupiedCount`. -/
theorem occupiedCount_pos {T : Type} {l : List (Entry T)} {i : Nat} {e : Entry T}
    (h : l[i]? = some e) (hv : e.value.isSome) : 0 < occupiedCount l := by
  obtain ⟨hlt, hget⟩ := List.getElem?_eq_some.mp h
  exact List.countP_pos_iff.mpr ⟨e, hget ▸ List.getElem_mem hlt, hv⟩

/-- Resizing yields exactly the requested length. -/
theorem length_resizeWith {T : Type} (b : List (Entry T)) (n : Nat) :
    (resizeWith b n).length = n := by
  unfold resizeWith
  split
  · simp; omega
  · simp; omega

/-- Resizing never increases the occupied count. -/
theorem occupiedCount_resizeWith_le {T : Type} (b : List (Entry T)) (n : Nat) :
    occupiedCount (resizeWith b n) ≤ occupiedCount b := by
  unfold resizeWith occupiedCount
  split
  · simp [List.countP_append, List.countP_replicate]
  · calc List.countP (fun e => e.value.isSome) (List.take n b)
        ≤ List.countP (fun e => e.value.isSome) (List.take n b)
            + List.countP (fun e => e.value.isSome) (List.drop n b) :=
          Nat.le_add_right _ _
      _ = List.countP (fun e => e.value.isSome) b := by
          rw [← List.countP_append, List.take_append_drop]

/-- Growing (not truncating) preserves the occupied count. -/
theorem occupiedCount_resizeWith_of_le {T : Type} (b : List (Entry T)) (n : Nat)
    (h : b.length ≤ n) : occupiedCount (resizeWith b n) = occupiedCount b := by
  unfold resizeWith occupiedCount
  rw [if_pos h]
  simp [List.countP_append, List.countP_replicate]

/-- Stamping pending recycled handles keeps the buffer length and never
increases the occupied count. -/
theorem stampRecycled_spec {T : Type} :
    ∀ (rs : List Index) (b b' : List (Entry T)), stampRecycled b rs = some b' →
      b'.length = b.length ∧ occupiedCount b' ≤ occupiedCount b
  | [], b, b', h => by
      simp [stampRecycled] at h
      subst h
      exact ⟨rfl, Nat.le_refl _⟩
  | i :: rest, b, b', h => by
      unfold stampRecycled at h
      split at h
      · next hlt =>
          obtain ⟨h1, h2⟩ := stampRecycled_spec rest _ b' h
          have hset := countP_set_swap (fun e => e.value.isSome) b i.index
            ⟨none, i.generation⟩ hlt
          simp only [Option.isSome_none, Bool.false_eq_true, if_false] at hset
          refine ⟨by simpa using h1, ?_⟩
          unfold occupiedCount at h2 ⊢
          omega
      · exact absurd h (by simp)

/-- What `flush` does to a state when it succeeds: `len` unchanged, buffer
length equal to the allocator's counter, occupied count not increased,
pending list drained, counter and queue preserved. -/
theorem flush_spec {T : Type} (s s1 : DenseStorage T) (h : s.flush = some s1) :
    s1.len = s.len ∧ s1.buffer.length = s.index_allocator.next_index ∧
      occupiedCount s1.buffer ≤ occupiedCount s.buffer ∧
      s1.index_allocator
        = ⟨s.index_allocator.next_index, s.index_allocator.recycle_queue, []⟩ := by
  unfold DenseStorage.flush at h
  split at h
  · exact absurd h (by simp)
  · next b hb =>
      obtain ⟨h1, h2⟩ := stampRecycled_spec _ _ _ hb
      cases h.symm
      refine ⟨rfl, ?_, ?_, rfl⟩
      · rw [h1, length_resizeWith]
      · exact le_trans h2 (occupiedCount_resizeWith_le _ _)

/-- A reconciled state (`recycled` drained, buffer already sized to the
counter) flushes to itself apart from the drained pending list. -/
theorem flush_reconciled {T : Type} (s : DenseStorage T) (n : Nat)
    (ha : s.index_allocator.next_index = n) (hr : s.index_allocator.recycled = [])
    (hb : s.buffer.length = n) :
    s.flush = some ⟨s.buffer, s.len,
      ⟨n, s.index_allocator.recycle_queue, []⟩⟩ := by
  unfold DenseStorage.flush
  have hres : resizeWith s.buffer s.index_allocator.next_index = s.buffer := by
    unfold resizeWith
    rw [ha, hb, if_pos (Nat.le_refl n)]
    simp
  rw [hres, hr, ha]
  simp [stampRecycled]

/-- Flushing a state whose single pending recycled handle targets an
in-range slot stamps that slot with the pending generation and clears it. -/
theorem flush_one_pending {T : Type} (s : DenseStorage T) (n i g : Nat)
    (q : List Index) (ha : s.index_allocator = ⟨n, q, [⟨i, g⟩]⟩)
    (hb : s.buffer.length = n) (hi : i < n) :
    s.flush = some ⟨s.buffer.set i ⟨none, g⟩, s.len, ⟨n, q, []⟩⟩ := by
  unfold DenseStorage.flush
  have hres : resizeWith s.buffer s.index_allocator.next_index = s.buffer := by
    unfold resizeWith
    rw [ha, hb]
    simp
  rw [hres, ha]
  unfold stampRecycled
  rw [if_pos (by rw [hb]; exact hi)]
  simp [stampRecycled]

/-- C10: `recycle` neither validates nor deduplicates.  Recycling the handle
`⟨0, 0⟩` twice and reserving twice returns the same handle `⟨0, 1⟩` (slot `0`,
generation `0 + 1`) from both `reserve` calls, so two outstanding handles
coincide. -/
theorem double_recycle_equal_handles :
    ((IndexAllocator.empty.recycle ⟨0, 0⟩).recycle ⟨0, 0⟩).reserve
        = some (⟨0, 1⟩,
          ⟨0, [⟨0, 0⟩], [⟨0, 1⟩]⟩) ∧
      (⟨0, [⟨0, 0⟩], [⟨0, 1⟩]⟩ : IndexAllocator).reserve
        = some (⟨0, 1⟩, ⟨0, [], [⟨0, 1⟩, ⟨0, 1⟩]⟩) := by
  constructor <;> decide

/-- C2 fails on the code: `remove` does not advance the slot's generation, so
after a successful `remove h` an immediate `insert` with the very same handle
`h` succeeds (returns `Ok(false)`) instead of failing with
`InvalidGenerationError`.  Concretely: slot `0` holds `1` under generation
`0`; `remove ⟨0,0⟩` yields the value, and `insert ⟨0,0⟩ 2` then succeeds. -/
theorem remove_stale_counterexample : ¬ removeStaleClaim := by
  intro hc
  obtain ⟨-, h2⟩ := hc ⟨[⟨some 1, 0⟩], 1, ⟨1, [], []⟩⟩ ⟨[⟨none, 0⟩], 0, ⟨1, [], []⟩⟩
    ⟨0, 0⟩ 1 (by decide)
  obtain ⟨er, s2, h3⟩ := h2 2
  have hok : (⟨[⟨none, 0⟩], 0, ⟨1, [], []⟩⟩ : DenseStorage Nat).insert ⟨0, 0⟩ 2
      = some (Except.ok false, ⟨[⟨some 2, 0⟩], 1, ⟨1, [], []⟩⟩) := by decide
  rw [hok] at h3
  simp at h3

/-- C3 fails on the code: recycling a handle whose slot is still occupied and
reserving lets the next `flush` clear the slot's value without adjusting
`len`.  After `reserve; insert ⟨0,0⟩ 10; recycle ⟨0,0⟩; reserve; remove ⟨0,1⟩`
the storage has `len = 1` but no occupied slot. -/
theorem len_occupied_counterexample : ¬ lenOccupiedClaim := by
  intro hc
  have := hc [Op.reserve, Op.insert ⟨0, 0⟩ 10, Op.recycle ⟨0, 0⟩, Op.reserve,
      Op.remove ⟨0, 1⟩]
    ⟨[⟨none, 1⟩], 1, ⟨1, [], []⟩⟩ (by decide)
  exact absurd this (by decide)

/-- C4 fails on the code: recycling a stale handle re-stamps the slot with
the stale generation plus one, which can be lower than the slot's current
generation.  Slot `0` is first driven to generation `2`; recycling the stale
handle `⟨0, 0⟩` and reserving then re-stamps it with generation `1 < 2`. -/
theorem generation_decrease_counterexample : ¬ generationMonotoneClaim := by
  intro hc
  have := hc
    [Op.reserve, Op.recycle ⟨0, 0⟩, Op.reserve, Op.recycle ⟨0, 1⟩, Op.reserve,
      Op.remove ⟨0, 2⟩]
    [Op.recycle ⟨0, 0⟩, Op.reserve, Op.remove ⟨0, 1⟩]
    ⟨[⟨none, 2⟩], 0, ⟨1, [], []⟩⟩ ⟨[⟨none, 1⟩], 0, ⟨1, [], []⟩⟩
    (by decide) (by decide) 0 ⟨none, 2⟩ ⟨none, 1⟩ (by decide) (by decide)
  exact absurd this (by decide)

/-- C6 fails on the code: `remove` indexes the buffer directly (unlike `get`,
which uses the checked lookup), so a handle whose slot is out of range after
reconciliation panics instead of returning `None`.  Concretely, `remove ⟨0,0⟩`
on the default (empty) storage panics. -/
theorem remove_out_of_range_counterexample : ¬ removeTotalClaim := by
  intro hc
  obtain ⟨r, s', h1⟩ := hc (DenseStorage.empty Nat) ⟨0, 0⟩
  have hn : (DenseStorage.empty Nat).remove ⟨0, 0⟩ = none := by decide
  rw [hn] at h1
  exact Option.noConfusion h1

/-- C7 fails on the code at the `u32` boundary: recycling a handle with
generation `2^32 - 1` makes the following `reserve` overflow the checked
generation bump (a panic in the debug build, a wrap to `0` — not `g + 1` — in
release), so the reserve does not return the handle with generation
incremented by `1`. -/
theorem fifo_reuse_overflow_counterexample : ¬ fifoReuseClaim := by
  intro hc
  obtain ⟨rs, a2, h1, -⟩ := hc IndexAllocator.empty [⟨0, 4294967295⟩] rfl
  have hn : reserveHandles (IndexAllocator.empty.recycleAll [⟨0, 4294967295⟩])
      (List.length [(⟨0, 4294967295⟩ : Index)]) = none := by decide
  rw [hn] at h1
  exact Option.noConfusion h1

/-- C5 fails on the code at the `u32` boundary: when the slot's (and
handle's) generation is `2^32 - 1`, the reserve following the recycle does
not return a handle with generation `g + 1` (checked overflow panics in the
debug build; release wraps to `0`). -/
theorem recycle_reserve_overflow_counterexample : ¬ recycleReserveClaim := by
  intro hc
  obtain ⟨a2, h1, -, -⟩ := hc ⟨[⟨none, 4294967295⟩], 0, ⟨1, [], []⟩⟩ 1 0 4294967295
    ⟨none, 4294967295⟩ rfl (by decide) (by decide) rfl
  have hn : ((⟨[⟨none, 4294967295⟩], 0, ⟨1, [], []⟩⟩ : DenseStorage Nat)
      |>.index_allocator.recycle ⟨0, 4294967295⟩).reserve = none := by decide
  rw [hn] at h1
  exact Option.noConfusion h1

/-- C1: when `insert h v` succeeds with payload `b`, an immediately following
`get h` returns `some v`; `b` is true exactly when the slot already held a
value at the time of the insert (i.e. after the reconciliation the insert
performs first), and `len` grows by exactly `1` when the slot was empty and
is unchanged otherwise. -/
theorem insert_ok_get_and_len {T : Type} (s s' s1 : DenseStorage T) (h : Index)
    (v : T) (b : Bool) (e : Entry T)
    (hins : s.insert h v = some (Except.ok b, s'))
    (hfl : s.flush = some s1) (hget : s1.buffer[h.index]? = some e) :
    s'.get h = some v ∧ b = e.value.isSome ∧
      s'.len = (if e.value.isSome then s.len else s.len + 1) := by
  have hlen1 : s1.len = s.len := (flush_spec s s1 hfl).1
  have hlt : h.index < s1.buffer.length := (List.getElem?_eq_some.mp hget).1
  simp only [DenseStorage.insert, hfl, hget] at hins
  split at hins
  · next hgen =>
    split at hins
    · next hv =>
      simp only [Option.some.injEq, Prod.mk.injEq, Except.ok.injEq] at hins
      obtain ⟨hb, hs⟩ := hins
      subst hs
      refine ⟨?_, by simp [← hb, hv], by simp [hv, hlen1]⟩
      unfold DenseStorage.get
      simp only [List.getElem?_set_self hlt]
      simp [hgen]
    · split at hins
      · simp only [Option.some.injEq, Prod.mk.injEq, Except.ok.injEq] at hins
        obtain ⟨hb, hs⟩ := hins
        subst hs
        next hv _ =>
        refine ⟨?_, by simp [← hb, hv], by simp [hv, hlen1]⟩
        unfold DenseStorage.get
        simp only [List.getElem?_set_self hlt]
        simp [hgen]
      · exact absurd hins (by simp)
  · exact absurd hins (by simp)

/-- Witness for `insert_ok_get_and_len` at a concrete input: inserting `5`
through the fresh handle `⟨0, 0⟩` into a storage with one empty slot. -/
theorem insert_ok_get_and_len_witness :
    (⟨[⟨some 5, 0⟩], 1, ⟨1, [], []⟩⟩ : DenseStorage Nat).get ⟨0, 0⟩ = some 5 ∧
      false = (⟨none, 0⟩ : Entry Nat).value.isSome ∧
      (⟨[⟨some 5, 0⟩], 1, ⟨1, [], []⟩⟩ : DenseStorage Nat).len
        = (if (⟨none, 0⟩ : Entry Nat).value.isSome
            then (⟨[⟨none, 0⟩], 0, ⟨1, [], []⟩⟩ : DenseStorage Nat).len
            else (⟨[⟨none, 0⟩], 0, ⟨1, [], []⟩⟩ : DenseStorage Nat).len + 1) :=
  insert_ok_get_and_len ⟨[⟨none, 0⟩], 0, ⟨1, [], []⟩⟩
    ⟨[⟨some 5, 0⟩], 1, ⟨1, [], []⟩⟩ ⟨[⟨none, 0⟩], 0, ⟨1, [], []⟩⟩
    ⟨0, 0⟩ 5 false ⟨none, 0⟩ (by decide) (by decide) (by decide)

/-- C9: a failing `insert` is atomic relative to reconciliation: it leaves
exactly the state `flush` alone would have produced, the error carries the
offending handle and the slot's current (mismatching) generation, and `len`
is unchanged. -/
theorem insert_error_atomic {T : Type} (s s' : DenseStorage T) (h : Index)
    (v : T) (er : InvalidGenerationError)
    (hins : s.insert h v = some (Except.error er, s')) :
    s.flush = some s' ∧ er.index = h ∧
      (∃ e, s'.buffer[h.index]? = some e ∧ er.current_generation = e.generation ∧
        e.generation ≠ h.generation) ∧
      s'.len = s.len := by
  cases hfl : s.flush with
  | none =>
      simp only [DenseStorage.insert, hfl] at hins
      exact Option.noConfusion hins
  | some s1 =>
    cases hget : s1.buffer[h.index]? with
    | none =>
        simp only [DenseStorage.insert, hfl, hget] at hins
        exact Option.noConfusion hins
    | some e =>
      simp only [DenseStorage.insert, hfl, hget] at hins
      split at hins
      · split at hins
        · exact absurd hins (by simp)
        · split at hins
          · exact absurd hins (by simp)
          · exact absurd hins (by simp)
      · next hgen =>
        simp only [Option.some.injEq, Prod.mk.injEq, Except.error.injEq] at hins
        obtain ⟨her, hs⟩ := hins
        subst hs
        exact ⟨rfl, by simp [← her], ⟨e, hget, by simp [← her], hgen⟩,
          (flush_spec s s1 hfl).1⟩

/-- Witness for `insert_error_atomic` at a concrete input: inserting through
the stale handle `⟨0, 0⟩` while slot `0` carries generation `5`. -/
theorem insert_error_atomic_witness :
    (⟨[⟨none, 5⟩], 0, ⟨1, [], []⟩⟩ : DenseStorage Nat).flush
        = some ⟨[⟨none, 5⟩], 0, ⟨1, [], []⟩⟩ ∧
      (⟨⟨0, 0⟩, 5⟩ : InvalidGenerationError).index = ⟨0, 0⟩ ∧
      (∃ e, (⟨[⟨none, 5⟩], 0, ⟨1, [], []⟩⟩ : DenseStorage Nat).buffer[(⟨0, 0⟩ : Index).index]?
          = some e ∧
        (⟨⟨0, 0⟩, 5⟩ : InvalidGenerationError).current_generation = e.generation ∧
        e.generation ≠ (⟨0, 0⟩ : Index).generation) ∧
      (⟨[⟨none, 5⟩], 0, ⟨1, [], []⟩⟩ : DenseStorage Nat).len
        = (⟨[⟨none, 5⟩], 0, ⟨1, [], []⟩⟩ : DenseStorage Nat).len :=
  insert_error_atomic ⟨[⟨none, 5⟩], 0, ⟨1, [], []⟩⟩ ⟨[⟨none, 5⟩], 0, ⟨1, [], []⟩⟩
    ⟨0, 0⟩ 9 ⟨⟨0, 0⟩, 5⟩ (by decide)

/-- C2 amended: after a successful `remove h` a following `get h` returns
`none`, and — since `remove` does not advance the slot's generation — an
immediately following `insert` with the very same handle `h` succeeds again
with payload `false` (the slot is empty and `h` is still current). -/
theorem remove_success_get_none_insert_ok {T : Type} (s s' : DenseStorage T)
    (h : Index) (v w : T) (hrem : s.remove h = some (some v, s'))
    (hlen : s.len < U32SIZE) :
    s'.get h = none ∧ ∃ s2, s'.insert h w = some (Except.ok false, s2) := by
  cases hfl : s.flush with
  | none =>
      simp only [DenseStorage.remove, hfl] at hrem
      exact Option.noConfusion hrem
  | some s1 =>
    cases hget : s1.buffer[h.index]? with
    | none =>
        simp only [DenseStorage.remove, hfl, hget] at hrem
        exact Option.noConfusion hrem
    | some e =>
      have hlen1 : s1.len = s.len := (flush_spec s s1 hfl).1
      have hlt : h.index < s1.buffer.length := (List.getElem?_eq_some.mp hget).1
      simp only [DenseStorage.remove, hfl, hget] at hrem
      split at hrem
      · next hgen =>
        cases hv : e.value with
        | none => simp only [hv] at hrem; simp at hrem
        | some v0 =>
          simp only [hv] at hrem
          split at hrem
          · exact Option.noConfusion hrem
          · next hne =>
            simp only [Option.some.injEq, Prod.mk.injEq] at hrem
            obtain ⟨-, hs⟩ := hrem
            subst hs
            constructor
            · simp [DenseStorage.get, List.getElem?_set_self hlt, hgen]
            · have hfl2 : DenseStorage.flush
                  ⟨s1.buffer.set h.index ⟨none, e.generation⟩, s1.len - 1,
                    s1.index_allocator⟩
                  = some ⟨s1.buffer.set h.index ⟨none, e.generation⟩, s1.len - 1,
                    ⟨s1.index_allocator.next_index,
                      s1.index_allocator.recycle_queue, []⟩⟩ := by
                refine flush_reconciled _ _ rfl ?_ ?_
                · rw [(flush_spec s s1 hfl).2.2.2]
                · rw [List.length_set, (flush_spec s s1 hfl).2.2.2]
                  exact (flush_spec s s1 hfl).2.1
              refine ⟨⟨(s1.buffer.set h.index ⟨none, e.generation⟩).set h.index
                  ⟨some w, e.generation⟩, s1.len - 1 + 1,
                  ⟨s1.index_allocator.next_index,
                    s1.index_allocator.recycle_queue, []⟩⟩, ?_⟩
              simp only [DenseStorage.insert, hfl2, List.getElem?_set_self hlt]
              rw [if_pos hgen]
              simp only [Option.isSome_none, Bool.false_eq_true, if_false]
              rw [if_pos (by omega)]
      · simp at hrem

/-- Witness for `remove_success_get_none_insert_ok`: remove the value `1`
stored at slot `0` under generation `0`, then re-insert `2` with the same
handle. -/
theorem remove_success_get_none_insert_ok_witness :
    (⟨[⟨none, 0⟩], 0, ⟨1, [], []⟩⟩ : DenseStorage Nat).get ⟨0, 0⟩ = none ∧
      ∃ s2, (⟨[⟨none, 0⟩], 0, ⟨1, [], []⟩⟩ : DenseStorage Nat).insert ⟨0, 0⟩ 2
        = some (Except.ok false, s2) :=
  remove_success_get_none_insert_ok ⟨[⟨some 1, 0⟩], 1, ⟨1, [], []⟩⟩
    ⟨[⟨none, 0⟩], 0, ⟨1, [], []⟩⟩ ⟨0, 0⟩ 1 2 (by decide) (by decide)

/-- C6 amended: for a handle whose slot is within the buffer bounds after
reconciliation (and a `len` consistent enough to cover the occupied count),
`remove` completes without a panic and returns the slot's value exactly when
the stored generation matches the handle's, `none` on a mismatch. -/
theorem remove_inbounds_spec {T : Type} (s s1 : DenseStorage T) (h : Index)
    (e : Entry T) (hfl : s.flush = some s1)
    (hget : s1.buffer[h.index]? = some e)
    (hocc : occupiedCount s.buffer ≤ s.len) :
    ∃ s', s.remove h
      = some ((if e.generation = h.generation then e.value else none), s') := by
  have hlen1 : s1.len = s.len := (flush_spec s s1 hfl).1
  have hle : occupiedCount s1.buffer ≤ occupiedCount s.buffer :=
    (flush_spec s s1 hfl).2.2.1
  by_cases hgen : e.generation = h.generation
  · cases hv : e.value with
    | none =>
        refine ⟨s1, ?_⟩
        simp [DenseStorage.remove, hfl, hget, hgen, hv]
    | some v0 =>
      have hone : 0 < occupiedCount s1.buffer :=
        occupiedCount_pos hget (by rw [hv]; rfl)
      have hne : s1.len ≠ 0 := by omega
      refine ⟨⟨s1.buffer.set h.index ⟨none, e.generation⟩, s1.len - 1,
        s1.index_allocator⟩, ?_⟩
      simp [DenseStorage.remove, hfl, hget, hgen, hv, hne]
  · refine ⟨s1, ?_⟩
    simp [DenseStorage.remove, hfl, hget, hgen]

/-- Witness for `remove_inbounds_spec`: a stale-generation handle on an
in-range occupied slot removes nothing and does not panic. -/
theorem remove_inbounds_spec_witness :
    ∃ s', (⟨[⟨some 4, 0⟩], 1, ⟨1, [], []⟩⟩ : DenseStorage Nat).remove ⟨0, 7⟩
      = some ((if (⟨some 4, 0⟩ : Entry Nat).generation
          = (⟨0, 7⟩ : Index).generation
        then (⟨some 4, 0⟩ : Entry Nat).value else none), s') :=
  remove_inbounds_spec ⟨[⟨some 4, 0⟩], 1, ⟨1, [], []⟩⟩
    ⟨[⟨some 4, 0⟩], 1, ⟨1, [], []⟩⟩ ⟨0, 7⟩ ⟨some 4, 0⟩
    (by decide) (by decide) (by decide)

/-- C4 amended: from a reconciled quiescent state, recycling a handle
`⟨i, gq⟩` and reserving stamps generation `gq + 1` into slot `i` at the next
reconciliation — an increase by exactly `1` over the recycled handle's
generation `gq`; when `gq` is the slot's current generation this strictly
increases it, but nothing ties `gq` to the slot's current generation (see
the counterexample), so the stamped value can also be lower. -/
theorem reuse_cycle_stamps_generation {T : Type} (s : DenseStorage T)
    (n i gq : Nat) (e : Entry T)
    (ha : s.index_allocator = ⟨n, [], []⟩) (hb : s.buffer.length = n)
    (he : s.buffer[i]? = some e) (hov : gq + 1 < U32SIZE) :
    ∃ (a2 : IndexAllocator) (sf : DenseStorage T),
      (s.index_allocator.recycle ⟨i, gq⟩).reserve = some (⟨i, gq + 1⟩, a2) ∧
      DenseStorage.flush ⟨s.buffer, s.len, a2⟩ = some sf ∧
      sf.buffer[i]? = some ⟨none, gq + 1⟩ ∧
      (e.generation = gq → e.generation < gq + 1) := by
  have hlt : i < s.buffer.length := (List.getElem?_eq_some.mp he).1
  have hi : i < n := hb ▸ hlt
  refine ⟨⟨n, [], [⟨i, gq + 1⟩]⟩,
    ⟨s.buffer.set i ⟨none, gq + 1⟩, s.len, ⟨n, [], []⟩⟩, ?_, ?_, ?_, ?_⟩
  · rw [ha]
    simp [IndexAllocator.recycle, IndexAllocator.reserve, hov]
  · exact flush_one_pending ⟨s.buffer, s.len, ⟨n, [], [⟨i, gq + 1⟩]⟩⟩
      n i (gq + 1) [] rfl hb hi
  · exact List.getElem?_set_self hlt
  · intro hq
    omega

/-- Witness for `reuse_cycle_stamps_generation`: recycling the current
handle `⟨0, 0⟩` of a one-slot storage stamps generation `1`. -/
theorem reuse_cycle_stamps_generation_witness :
    ∃ (a2 : IndexAllocator) (sf : DenseStorage Nat),
      ((⟨[⟨none, 0⟩], 0, ⟨1, [], []⟩⟩ : DenseStorage Nat)
          |>.index_allocator.recycle ⟨0, 0⟩).reserve = some (⟨0, 0 + 1⟩, a2) ∧
      DenseStorage.flush ⟨[⟨none, 0⟩], 0, a2⟩ = some sf ∧
      sf.buffer[0]? = some ⟨none, 0 + 1⟩ ∧
      ((⟨none, 0⟩ : Entry Nat).generation = 0
        → (⟨none, 0⟩ : Entry Nat).generation < 0 + 1) :=
  reuse_cycle_stamps_generation ⟨[⟨none, 0⟩], 0, ⟨1, [], []⟩⟩ 1 0 0 ⟨none, 0⟩
    rfl (by decide) (by decide) (by decide)

/-- C5 amended: from a reconciled quiescent state whose slot `i` holds
generation `g` (with `g + 1` and `len + 1` below the `u32` limit), recycling
`⟨i, g⟩` and reserving returns the same slot with generation exactly `g + 1`;
afterwards an `insert` through the old handle fails with
`InvalidGenerationError` carrying the slot's new generation, an `insert`
through the new handle succeeds with payload `false` and a `get` with the
new handle sees the value, and `buffer_len` is unchanged throughout. -/
theorem recycle_reserve_reuse_spec {T : Type} (s : DenseStorage T)
    (n i g : Nat) (e : Entry T) (w wOld : T)
    (ha : s.index_allocator = ⟨n, [], []⟩) (hb : s.buffer.length = n)
    (he : s.buffer[i]? = some e) (hg : e.generation = g)
    (hov : g + 1 < U32SIZE) (hlen : s.len + 1 < U32SIZE) :
    (s.index_allocator.recycle ⟨i, g⟩).reserve
        = some (⟨i, g + 1⟩, ⟨n, [], [⟨i, g + 1⟩]⟩) ∧
      (∃ sf, DenseStorage.insert ⟨s.buffer, s.len, ⟨n, [], [⟨i, g + 1⟩]⟩⟩
          ⟨i, g⟩ wOld = some (Except.error ⟨⟨i, g⟩, g + 1⟩, sf) ∧
        sf.buffer_len = s.buffer_len) ∧
      (∃ sc, DenseStorage.insert ⟨s.buffer, s.len, ⟨n, [], [⟨i, g + 1⟩]⟩⟩
          ⟨i, g + 1⟩ w = some (Except.ok false, sc) ∧
        sc.get ⟨i, g + 1⟩ = some w ∧ sc.buffer_len = s.buffer_len) := by
  have hlt : i < s.buffer.length := (List.getElem?_eq_some.mp he).1
  have hi : i < n := hb ▸ hlt
  have hfl : DenseStorage.flush ⟨s.buffer, s.len, ⟨n, [], [⟨i, g + 1⟩]⟩⟩
      = some ⟨s.buffer.set i ⟨none, g + 1⟩, s.len, ⟨n, [], []⟩⟩ :=
    flush_one_pending ⟨s.buffer, s.len, ⟨n, [], [⟨i, g + 1⟩]⟩⟩
      n i (g + 1) [] rfl hb hi
  have hset : (s.buffer.set i ⟨none, g + 1⟩)[i]? = some ⟨none, g + 1⟩ :=
    List.getElem?_set_self hlt
  refine ⟨?_, ?_, ?_⟩
  · rw [ha]
    simp [IndexAllocator.recycle, IndexAllocator.reserve, hov]
  · refine ⟨⟨s.buffer.set i ⟨none, g + 1⟩, s.len, ⟨n, [], []⟩⟩, ?_, ?_⟩
    · simp only [DenseStorage.insert, hfl, hset]
      rw [if_neg (by omega)]
    · simp [DenseStorage.buffer_len, List.length_set]
  · refine ⟨⟨(s.buffer.set i ⟨none, g + 1⟩).set i ⟨some w, g + 1⟩, s.len + 1,
      ⟨n, [], []⟩⟩, ?_, ?_, ?_⟩
    · simp only [DenseStorage.insert, hfl, hset]
      simp [hlen]
    · simp [DenseStorage.get, List.getElem?_set_self hlt]
    · simp [DenseStorage.buffer_len, List.length_set]

/-- Witness for `recycle_reserve_reuse_spec`: reuse the single slot of a
storage holding `3` under generation `0`, inserting `7` through the new
handle and `9` through the stale one. -/
theorem recycle_reserve_reuse_spec_witness :
    ((⟨[⟨some 3, 0⟩], 1, ⟨1, [], []⟩⟩ : DenseStorage Nat)
        |>.index_allocator.recycle ⟨0, 0⟩).reserve
        = some (⟨0, 0 + 1⟩, ⟨1, [], [⟨0, 0 + 1⟩]⟩) ∧
      (∃ sf, DenseStorage.insert ⟨[⟨some 3, 0⟩], 1, ⟨1, [], [⟨0, 0 + 1⟩]⟩⟩
          ⟨0, 0⟩ 9 = some (Except.error ⟨⟨0, 0⟩, 0 + 1⟩, sf) ∧
        sf.buffer_len
          = (⟨[⟨some 3, 0⟩], 1, ⟨1, [], []⟩⟩ : DenseStorage Nat).buffer_len) ∧
      (∃ sc, DenseStorage.insert ⟨[⟨some 3, 0⟩], 1, ⟨1, [], [⟨0, 0 + 1⟩]⟩⟩
          ⟨0, 0 + 1⟩ 7 = some (Except.ok false, sc) ∧
        sc.get ⟨0, 0 + 1⟩ = some 7 ∧
        sc.buffer_len
          = (⟨[⟨some 3, 0⟩], 1, ⟨1, [], []⟩⟩ : DenseStorage Nat).buffer_len) :=
  recycle_reserve_reuse_spec ⟨[⟨some 3, 0⟩], 1, ⟨1, [], []⟩⟩ 1 0 0 ⟨some 3, 0⟩
    7 9 rfl (by decide) (by decide) (by decide) (by decide) (by decide)

/-- Recycling a list of handles appends them, in order, to the queue. -/
theorem recycleAll_spec (hs : List Index) : ∀ (a : IndexAllocator),
    a.recycleAll hs = ⟨a.next_index, a.recycle_queue ++ hs, a.recycled⟩ := by
  induction hs with
  | nil =>
      intro a
      obtain ⟨na, qa, ra⟩ := a
      simp [IndexAllocator.recycleAll]
  | cons h t ih =>
      intro a
      have h1 : a.recycleAll (h :: t) = (a.recycle h).recycleAll t := rfl
      rw [h1, ih]
      simp [IndexAllocator.recycle, List.append_assoc]

/-- Draining a queue of `n` handles with `n` `reserve` calls pops them in
FIFO order, returning each with generation bumped by one, and records the
bumped handles in `recycled` in the same order. -/
theorem reserveHandles_drain (hs : List Index) : ∀ (a : IndexAllocator),
    a.recycle_queue = hs → (∀ h ∈ hs, h.generation + 1 < U32SIZE) →
    reserveHandles a hs.length
      = some (hs.map (fun h => ⟨h.index, h.generation + 1⟩),
        ⟨a.next_index, [],
          a.recycled ++ hs.map (fun h => ⟨h.index, h.generation + 1⟩)⟩) := by
  induction hs with
  | nil =>
      intro a hq hg
      obtain ⟨na, qa, ra⟩ := a
      simp only at hq
      subst hq
      simp [reserveHandles]
  | cons h t ih =>
      intro a hq hg
      have hres : a.reserve = some (⟨h.index, h.generation + 1⟩,
          ⟨a.next_index, t, a.recycled ++ [⟨h.index, h.generation + 1⟩]⟩) := by
        simp only [IndexAllocator.reserve, hq]
        rw [if_pos (hg h (List.mem_cons_self h t))]
      have hlen : (h :: t).length = t.length + 1 := rfl
      rw [hlen]
      simp only [reserveHandles, hres]
      have hih := ih ⟨a.next_index, t,
          a.recycled ++ [(⟨h.index, h.generation + 1⟩ : Index)]⟩ rfl
        (fun x hx => hg x (List.mem_cons_of_mem h hx))
      rw [hih]
      simp [List.append_assoc]

/-- C7 amended: on an allocator whose queue is empty, recycling
`h1, ..., hn` and then reserving `n` times succeeds and returns exactly the
recycled handles in FIFO order, each with its generation incremented by `1`,
provided every recycled generation is below the `u32` limit. -/
theorem fifo_reuse_spec (a : IndexAllocator) (hs : List Index)
    (hq : a.recycle_queue = [])
    (hg : ∀ h ∈ hs, h.generation + 1 < U32SIZE) :
    ∃ rs a2, reserveHandles (a.recycleAll hs) hs.length = some (rs, a2) ∧
      rs = hs.map (fun h => ⟨h.index, h.generation + 1⟩) := by
  have h1 : a.recycleAll hs = ⟨a.next_index, hs, a.recycled⟩ := by
    rw [recycleAll_spec, hq]
    simp
  refine ⟨hs.map (fun h => ⟨h.index, h.generation + 1⟩),
    ⟨a.next_index, [], a.recycled ++ hs.map (fun h => ⟨h.index, h.generation + 1⟩)⟩,
    ?_, rfl⟩
  rw [h1]
  exact reserveHandles_drain hs _ rfl hg

/-- Witness for `fifo_reuse_spec`: recycling `⟨0, 5⟩` then `⟨3, 1⟩` on the
default allocator and reserving twice. -/
theorem fifo_reuse_spec_witness :
    ∃ rs a2, reserveHandles
        (IndexAllocator.empty.recycleAll [⟨0, 5⟩, ⟨3, 1⟩])
        (List.length [(⟨0, 5⟩ : Index), ⟨3, 1⟩]) = some (rs, a2) ∧
      rs = [(⟨0, 5⟩ : Index), ⟨3, 1⟩].map (fun h => ⟨h.index, h.generation + 1⟩) :=
  fifo_reuse_spec IndexAllocator.empty [⟨0, 5⟩, ⟨3, 1⟩] rfl (by decide)

/-- With an empty recycle queue, `k` `reserve` calls return fresh handles
whose slots follow the wrapping counter: the `j`-th call (0-based) returns
slot `(next_index + j) % 2^32` with generation `0`. -/
theorem reserveHandles_fresh (k : Nat) : ∀ (a : IndexAllocator),
    a.recycle_queue = [] → a.next_index < U32SIZE →
    reserveHandles a k
      = some ((List.range k).map
          (fun j => ⟨(a.next_index + j) % U32SIZE, 0⟩),
        ⟨(a.next_index + k) % U32SIZE, [], a.recycled⟩) := by
  induction k with
  | zero =>
      intro a hq hm
      obtain ⟨na, qa, ra⟩ := a
      simp only at hq hm
      subst hq
      simp [reserveHandles, Nat.mod_eq_of_lt hm]
  | succ k ih =>
      intro a hq hm
      have hres : a.reserve = some (⟨a.next_index, 0⟩,
          ⟨(a.next_index + 1) % U32SIZE, [], a.recycled⟩) := by
        simp [IndexAllocator.reserve, hq]
      have hih := ih ⟨(a.next_index + 1) % U32SIZE, [], a.recycled⟩ rfl
        (Nat.mod_lt _ (by norm_num [U32SIZE]))
      simp only [reserveHandles, hres, hih]
      rw [List.range_succ_eq_map, List.map_cons, List.map_map]
      simp only [Option.some.injEq, Prod.mk.injEq, List.cons.injEq]
      refine ⟨⟨?_, ?_⟩, ?_⟩
      · simp [Nat.mod_eq_of_lt hm]
      · apply List.map_congr_left
        intro j hj
        simp only [Function.comp_apply]
        rw [Nat.mod_add_mod]
        rw [show a.next_index + 1 + j = a.next_index + Nat.succ j from by omega]
      · rw [Nat.mod_add_mod]
        rw [show a.next_index + 1 + k = a.next_index + (k + 1) from by omega]

/-- Specialisation to the default allocator: the `j`-th fresh handle is
`⟨j % 2^32, 0⟩` and the counter ends at `k % 2^32`. -/
theorem reserveHandles_empty (k : Nat) :
    reserveHandles IndexAllocator.empty k
      = some ((List.range k).map (fun j => ⟨j % U32SIZE, 0⟩),
        ⟨k % U32SIZE, [], []⟩) := by
  have h := reserveHandles_fresh k IndexAllocator.empty rfl
    (by norm_num [IndexAllocator.empty, U32SIZE])
  simpa [IndexAllocator.empty] using h

/-- C8 fails on the code in the large: the fresh-slot counter is an
`AtomicU32` whose `fetch_add` wraps modulo `2^32` (in every build profile),
so among `2^32 + 1` reserve calls with no recycling the last handle has slot
`0` again — the slots are not strictly increasing. -/
theorem fresh_reserve_wrap_counterexample : ¬ freshReserveClaim := by
  intro hc
  have hMpos : 0 < U32SIZE := by norm_num [U32SIZE]
  obtain ⟨-, hmono⟩ := hc (U32SIZE + 1) _ _ (reserveHandles_empty (U32SIZE + 1))
  have h1 : ((List.range (U32SIZE + 1)).map
      (fun j => (⟨j % U32SIZE, 0⟩ : Index)))[U32SIZE - 1]?
      = some ⟨(U32SIZE - 1) % U32SIZE, 0⟩ := by
    rw [List.getElem?_map, List.getElem?_range (by omega), Option.map_some']
  have h2 : ((List.range (U32SIZE + 1)).map
      (fun j => (⟨j % U32SIZE, 0⟩ : Index)))[U32SIZE]?
      = some ⟨U32SIZE % U32SIZE, 0⟩ := by
    rw [List.getElem?_map, List.getElem?_range (by omega), Option.map_some']
  have hlt := hmono (U32SIZE - 1) U32SIZE ⟨(U32SIZE - 1) % U32SIZE, 0⟩
    ⟨U32SIZE % U32SIZE, 0⟩ (by omega) h1 h2
  rw [Nat.mod_self] at hlt
  simp at hlt

/-- C8 amended: with no recycling, the `j`-th reserve (0-based) returns slot
`j % 2^32` with generation `0`; every returned handle has generation `0`,
and slots are strictly increasing among the first `2^32` calls (the wrapping
counter breaks monotonicity only past that point). -/
theorem fresh_reserve_spec :
    (∀ (k : Nat), reserveHandles IndexAllocator.empty k
      = some ((List.range k).map (fun j => ⟨j % U32SIZE, 0⟩),
        ⟨k % U32SIZE, [], []⟩)) ∧
    (∀ (k j1 j2 : Nat) (h1 h2 : Index) (rs : List Index)
      (a2 : IndexAllocator),
      reserveHandles IndexAllocator.empty k = some (rs, a2) →
      rs[j1]? = some h1 → rs[j2]? = some h2 → j1 < j2 → j2 < U32SIZE →
      h1.generation = 0 ∧ h2.generation = 0 ∧ h1.index < h2.index) := by
  refine ⟨reserveHandles_empty, ?_⟩
  intro k j1 j2 h1 h2 rs a2 hres hj1 hj2 hlt hM
  rw [reserveHandles_empty k] at hres
  simp only [Option.some.injEq, Prod.mk.injEq] at hres
  obtain ⟨hrs, -⟩ := hres
  subst hrs
  have hl2 : j2 < k := by
    have := (List.getElem?_eq_some.mp hj2).1
    simpa using this
  have hl1 : j1 < k := lt_trans hlt hl2
  rw [List.getElem?_map, List.getElem?_range hl1, Option.map_some'] at hj1
  rw [List.getElem?_map, List.getElem?_range hl2, Option.map_some'] at hj2
  simp only [Option.some.injEq] at hj1 hj2
  subst hj1
  subst hj2
  refine ⟨rfl, rfl, ?_⟩
  simp only
  rw [Nat.mod_eq_of_lt (by omega), Nat.mod_eq_of_lt hM]
  exact hlt

/-- Witness for `fresh_reserve_spec`: three fresh reserves, comparing the
first and third returned handles. -/
theorem fresh_reserve_spec_witness :
    (reserveHandles IndexAllocator.empty 3
      = some ((List.range 3).map (fun j => ⟨j % U32SIZE, 0⟩),
        ⟨3 % U32SIZE, [], []⟩)) ∧
    ((⟨0 % U32SIZE, 0⟩ : Index).generation = 0 ∧
      (⟨2 % U32SIZE, 0⟩ : Index).generation = 0 ∧
      (⟨0 % U32SIZE, 0⟩ : Index).index < (⟨2 % U32SIZE, 0⟩ : Index).index) :=
  ⟨fresh_reserve_spec.1 3,
    fresh_reserve_spec.2 3 0 2 ⟨0 % U32SIZE, 0⟩ ⟨2 % U32SIZE, 0⟩ _ _
      (fresh_reserve_spec.1 3) (by decide) (by decide) (by decide) (by decide)⟩

/-- Variant of `countP_set_swap` keyed on an optional lookup and specialised
to the occupied-slot count. -/
theorem occ_set_get {T : Type} (l : List (Entry T)) (i : Nat) (a e : Entry T)
    (h : l[i]? = some e) :
    occupiedCount (l.set i a) + (if e.value.isSome then 1 else 0)
      = occupiedCount l + (if a.value.isSome then 1 else 0) := by
  obtain ⟨hlt, hget⟩ := List.getElem?_eq_some.mp h
  have hc := countP_set_swap (fun x => x.value.isSome) l i a hlt
  rw [hget] at hc
  unfold occupiedCount
  simpa using hc

/-- Net `len`/occupied accounting of a completed `insert`, relative to the
flushed intermediate state: both counters move in lockstep. -/
theorem insert_shape {T : Type} (s s1 : DenseStorage T) (i : Index) (v : T)
    (res : Except InvalidGenerationError Bool)
    (h : s.insert i v = some (res, s1)) :
    ∃ sf, s.flush = some sf ∧
      s1.len + occupiedCount sf.buffer = sf.len + occupiedCount s1.buffer := by
  cases hfl : s.flush with
  | none =>
      simp only [DenseStorage.insert, hfl] at h
      exact Option.noConfusion h
  | some sf =>
    refine ⟨sf, rfl, ?_⟩
    cases hget : sf.buffer[i.index]? with
    | none =>
        simp only [DenseStorage.insert, hfl, hget] at h
        exact Option.noConfusion h
    | some e =>
      have hc := occ_set_get sf.buffer i.index ⟨some v, e.generation⟩ e hget
      simp only [Option.isSome_some, if_true] at hc
      simp only [DenseStorage.insert, hfl, hget] at h
      split at h
      · split at h
        · next hv =>
          simp only [Option.some.injEq, Prod.mk.injEq] at h
          obtain ⟨-, hs⟩ := h
          subst hs
          rw [if_pos hv] at hc
          dsimp only
          omega
        · split at h
          · next hv _ =>
            simp only [Option.some.injEq, Prod.mk.injEq] at h
            obtain ⟨-, hs⟩ := h
            subst hs
            rw [if_neg hv] at hc
            dsimp only
            omega
          · exact Option.noConfusion h
      · simp only [Option.some.injEq, Prod.mk.injEq] at h
        obtain ⟨-, hs⟩ := h
        subst hs
        omega

/-- Net `len`/occupied accounting of a completed `remove`, relative to the
flushed intermediate state. -/
theorem remove_shape {T : Type} (s s1 : DenseStorage T) (i : Index)
    (res : Option T) (h : s.remove i = some (res, s1)) :
    ∃ sf, s.flush = some sf ∧
      s1.len + occupiedCount sf.buffer = sf.len + occupiedCount s1.buffer := by
  cases hfl : s.flush with
  | none =>
      simp only [DenseStorage.remove, hfl] at h
      exact Option.noConfusion h
  | some sf =>
    refine ⟨sf, rfl, ?_⟩
    cases hget : sf.buffer[i.index]? with
    | none =>
        simp only [DenseStorage.remove, hfl, hget] at h
        exact Option.noConfusion h
    | some e =>
      simp only [DenseStorage.remove, hfl, hget] at h
      split at h
      · cases hv : e.value with
        | none =>
            simp only [hv, Option.some.injEq, Prod.mk.injEq] at h
            obtain ⟨-, hs⟩ := h
            subst hs
            omega
        | some v0 =>
          simp only [hv] at h
          split at h
          · exact Option.noConfusion h
          · next hne =>
            simp only [Option.some.injEq, Prod.mk.injEq] at h
            obtain ⟨-, hs⟩ := h
            subst hs
            have hc := occ_set_get sf.buffer i.index ⟨none, e.generation⟩ e hget
            rw [if_pos (by rw [hv]; rfl), if_neg (by simp)] at hc
            dsimp only
            omega
      · simp only [Option.some.injEq, Prod.mk.injEq] at h
        obtain ⟨-, hs⟩ := h
        subst hs
        omega

/-- Net `len`/occupied accounting of a completed `remove_recycle`: the extra
recycling step touches neither the buffer nor `len`. -/
theorem remove_recycle_shape {T : Type} (s s1 : DenseStorage T) (i : Index)
    (res : Option T) (h : s.remove_recycle i = some (res, s1)) :
    ∃ sf, s.flush = some sf ∧
      s1.len + occupiedCount sf.buffer = sf.len + occupiedCount s1.buffer := by
  cases hrem : s.remove i with
  | none =>
      simp only [DenseStorage.remove_recycle, hrem] at h
      exact Option.noConfusion h
  | some p =>
    obtain ⟨r, s2⟩ := p
    simp only [DenseStorage.remove_recycle, hrem] at h
    obtain ⟨sf, hfl, heq⟩ := remove_shape s s2 i r hrem
    cases r with
    | some v =>
        simp only [Option.some.injEq, Prod.mk.injEq] at h
        obtain ⟨-, hs⟩ := h
        subst hs
        exact ⟨sf, hfl, heq⟩
    | none =>
        simp only [Option.some.injEq, Prod.mk.injEq] at h
        obtain ⟨-, hs⟩ := h
        subst hs
        exact ⟨sf, hfl, heq⟩

/-- The leak-accounting invariant is preserved along any run: `len` equals
the occupied count plus the values dropped so far by reconciliation. -/
theorem runLeak_invariant (ops : List Op) : ∀ (s0 : DenseStorage Nat)
    (acc : Nat) (s : DenseStorage Nat) (l : Nat),
    s0.len = occupiedCount s0.buffer + acc →
    runLeakFrom s0 acc ops = some (s, l) →
    s.len = occupiedCount s.buffer + l := by
  induction ops with
  | nil =>
      intro s0 acc s l hinv hrun
      simp only [runLeakFrom, Option.some.injEq, Prod.mk.injEq] at hrun
      obtain ⟨hs, hl⟩ := hrun
      subst hs
      subst hl
      exact hinv
  | cons op rest ih =>
      intro s0 acc s l hinv hrun
      cases hexec : execOp s0 op with
      | none =>
          simp only [runLeakFrom, hexec] at hrun
          exact Option.noConfusion hrun
      | some s1 =>
        simp only [runLeakFrom, hexec] at hrun
        refine ih s1 (acc + opDrop s0 op) s l ?_ hrun
        cases op with
        | reserve =>
            cases hres : s0.index_allocator.reserve with
            | none =>
                simp only [execOp, hres] at hexec
                exact Option.noConfusion hexec
            | some p =>
              obtain ⟨x, a⟩ := p
              simp only [execOp, hres, Option.some.injEq] at hexec
              subst hexec
              simpa [opDrop] using hinv
        | recycle j =>
            simp only [execOp, Option.some.injEq] at hexec
            subst hexec
            simpa [opDrop] using hinv
        | insert j v =>
            cases hins : s0.insert j v with
            | none =>
                simp only [execOp, hins] at hexec
                exact Option.noConfusion hexec
            | some p =>
              obtain ⟨r, s2⟩ := p
              simp only [execOp, hins, Option.some.injEq] at hexec
              subst hexec
              obtain ⟨sf, hfl, heq⟩ := insert_shape s0 s2 j v r hins
              have hspec := flush_spec s0 sf hfl
              simp only [opDrop, hfl]
              omega
        | remove j =>
            cases hrem : s0.remove j with
            | none =>
                simp only [execOp, hrem] at hexec
                exact Option.noConfusion hexec
            | some p =>
              obtain ⟨r, s2⟩ := p
              simp only [execOp, hrem, Option.some.injEq] at hexec
              subst hexec
              obtain ⟨sf, hfl, heq⟩ := remove_shape s0 s2 j r hrem
              have hspec := flush_spec s0 sf hfl
              simp only [opDrop, hfl]
              omega
        | removeRecycle j =>
            cases hrem : s0.remove_recycle j with
            | none =>
                simp only [execOp, hrem] at hexec
                exact Option.noConfusion hexec
            | some p =>
              obtain ⟨r, s2⟩ := p
              simp only [execOp, hrem, Option.some.injEq] at hexec
              subst hexec
              obtain ⟨sf, hfl, heq⟩ := remove_recycle_shape s0 s2 j r hrem
              have hspec := flush_spec s0 sf hfl
              simp only [opDrop, hfl]
              omega

/-- Dropping the ghost counter recovers the plain run. -/
theorem runLeakFrom_fst (ops : List Op) : ∀ (s0 : DenseStorage Nat) (acc : Nat),
    (runLeakFrom s0 acc ops).map Prod.fst = runFrom s0 ops := by
  induction ops with
  | nil => intro s0 acc; rfl
  | cons op rest ih =>
      intro s0 acc
      cases hexec : execOp s0 op with
      | none => simp [runLeakFrom, runFrom, hexec]
      | some s1 =>
          simp only [runLeakFrom, runFrom, hexec]
          exact ih s1 _

/-- C3 amended: for every completed operation sequence, `len` equals the
occupied-slot count plus the number of values dropped by reconciliation
(occupied slots cleared by the defensive recycle stamp or cut off by buffer
truncation); `len` equals the occupied count exactly when reconciliation has
dropped nothing. -/
theorem len_occupied_leak_accounting (ops : List Op) (s : DenseStorage Nat)
    (h : runOps ops = some s) :
    ∃ l, runLeakFrom (DenseStorage.empty Nat) 0 ops = some (s, l) ∧
      s.len = occupiedCount s.buffer + l := by
  have hb := runLeakFrom_fst ops (DenseStorage.empty Nat) 0
  rw [runOps] at h
  rw [h] at hb
  cases hrl : runLeakFrom (DenseStorage.empty Nat) 0 ops with
  | none => rw [hrl] at hb; exact Option.noConfusion hb
  | some p =>
    obtain ⟨s2, l⟩ := p
    rw [hrl] at hb
    simp only [Option.map_some', Option.some.injEq] at hb
    subst hb
    exact ⟨l, rfl, runLeak_invariant ops (DenseStorage.empty Nat) 0 _ l rfl hrl⟩

/-- Witness for `len_occupied_leak_accounting`: the leaking trace of the C3
counterexample, whose ghost counter is `1` (one value dropped by the stamp),
balancing `len = 1` against zero occupied slots. -/
theorem len_occupied_leak_accounting_witness :
    ∃ l, runLeakFrom (DenseStorage.empty Nat) 0
        [Op.reserve, Op.insert ⟨0, 0⟩ 10, Op.recycle ⟨0, 0⟩, Op.reserve,
          Op.remove ⟨0, 1⟩]
      = some (⟨[⟨none, 1⟩], 1, ⟨1, [], []⟩⟩, l) ∧
      (⟨[⟨none, 1⟩], 1, ⟨1, [], []⟩⟩ : DenseStorage Nat).len
        = occupiedCount
            (⟨[⟨none, 1⟩], 1, ⟨1, [], []⟩⟩ : DenseStorage Nat).buffer + l :=
  len_occupied_leak_accounting
    [Op.reserve, Op.insert ⟨0, 0⟩ 10, Op.recycle ⟨0, 0⟩, Op.reserve,
      Op.remove ⟨0, 1⟩]
    ⟨[⟨none, 1⟩], 1, ⟨1, [], []⟩⟩ (by decide)
